import Mathlib

/-!
Verification of the emote-statistics pipeline in `docker/main.py`.

The pipeline scans Twitch chat transcripts for emote occurrences
(`get_emote_users`), maintains a persisted mapping from VOD id to its
per-emote usage record (`EmoteStateContainer`), and aggregates two rollups
(daily totals and per-user totals) in `post_process`.  The `__main__` block
drives one run: load config and state, filter out already-recorded VODs,
fetch and scan each new VOD's chat, and persist state plus rollups only when
something new was found.

Python `dict`s preserve insertion order; we model them as association lists
with in-place update semantics (`dset` replaces the value at an existing key
without moving it, and appends new keys at the end).  Timestamps and the
UTC→US/Eastern day-key conversion are abstracted: a record's `created` field
is an opaque instant (a `Nat`), and aggregation is parameterised by a
`dateKey : Nat → String` function standing for
`created.astimezone(ZoneInfo("US/Eastern")).strftime("%Y-%m-%d")`.
-/

namespace EmoteStats

/-- Association-list model of a Python `dict[str, β]` (insertion ordered). -/
abbrev Dict (β : Type) : Type := List (String × β)

/-- `d[k]` lookup: first entry with key `k`, if any. -/
def dget {β : Type} (d : Dict β) (k : String) : Option β :=
  match d with
  | [] => none
  | (k', v) :: rest => if k' = k then some v else dget rest k

/-- `k in d` membership test. -/
def dmem {β : Type} (d : Dict β) (k : String) : Bool :=
  (dget d k).isSome

/-- `d[k] = v` assignment: replaces in place if `k` is present (keeping its
position, as Python dicts do), otherwise appends at the end. -/
def dset {β : Type} (d : Dict β) (k : String) (v : β) : Dict β :=
  match d with
  | [] => [(k, v)]
  | (k', v') :: rest => if k' = k then (k', v) :: rest else (k', v') :: dset rest k v

/-- `d.values()`. -/
def dvalues {β : Type} (d : Dict β) : List β :=
  d.map Prod.snd

/-! ## Data model (`pydantic` models in `main.py`) -/

/-- `VodInfo`: id, title and two timestamps.  Instants are opaque `Nat`s. -/
structure VodInfo where
  id : String
  title : String
  created : Nat
  published : Nat
deriving DecidableEq, Repr

/-- `EmoteUser`: one commenter's display name and occurrence count
(`use_index`). -/
structure EmoteUser where
  display_name : String
  use_index : Nat := 0
deriving DecidableEq, Repr

/-- `EmoteInfo`: an emote name together with its list of `EmoteUser`s. -/
structure EmoteInfo where
  name : String
  users : List EmoteUser := []
deriving DecidableEq, Repr

/-- `VodEmoteStat`: a VOD's info plus one `EmoteInfo` per configured emote. -/
structure VodEmoteStat where
  info : VodInfo
  emotes : List EmoteInfo
deriving DecidableEq, Repr

/-- `EmoteStateContainer.data`: the persisted map from VOD id to its record. -/
abbrev EmoteState : Type := Dict VodEmoteStat

/-! ## Chat transcript (the JSON produced by the external downloader) -/

/-- One chat comment: `comment["commenter"]["display_name"]` and
`comment["message"]["body"]`. -/
structure Comment where
  commenter : String
  body : String
deriving DecidableEq, Repr

/-- The chat JSON: the VOD id under `chat_json["video"]["id"]` and the list
of comments. -/
structure ChatJson where
  videoId : String
  comments : List Comment
deriving DecidableEq, Repr

/-! ## EmoteUsageScanner (`get_emote_users`) -/

/-- Python's `pat in body` substring test, on character lists. -/
def listContainsSub (body pat : List Char) : Bool :=
  match body with
  | [] => decide (pat = [])
  | _ :: rest => pat.isPrefixOf body || listContainsSub rest pat

/-- Python's `pat in body` substring test on strings. -/
def containsSub (body pat : String) : Bool :=
  listContainsSub body.toList pat.toList

/-- Membership test `commenter in emote_users` for the per-emote dict keyed
by display name. -/
def hasUser (users : List EmoteUser) (n : String) : Bool :=
  users.any (fun u => u.display_name = n)

/-- `emote_users[commenter].use_index += 1`: bump the first entry with the
given display name, in place. -/
def bumpUser (users : List EmoteUser) (n : String) : List EmoteUser :=
  match users with
  | [] => []
  | u :: rest =>
      if u.display_name = n then { u with use_index := u.use_index + 1 } :: rest
      else u :: bumpUser rest n

/-- The inner loop of `get_emote_users` for one emote name: fold over the
comments, maintaining the `emote_users` dict (modelled as the list of its
values, keyed by `display_name`). -/
def scanComments (emoteName : String) (cs : List Comment) (acc : List EmoteUser) :
    List EmoteUser :=
  match cs with
  | [] => acc
  | c :: rest =>
      if containsSub c.body emoteName then
        if hasUser acc c.commenter then
          scanComments emoteName rest (bumpUser acc c.commenter)
        else
          scanComments emoteName rest (acc ++ [{ display_name := c.commenter, use_index := 1 }])
      else
        scanComments emoteName rest acc

/-- `get_emote_users`: one `EmoteInfo` per requested emote name, in order. -/
def get_emote_users (chat : ChatJson) (emoteNames : List String) : List EmoteInfo :=
  emoteNames.map (fun e => { name := e, users := scanComments e chat.comments [] })

/-- Number of comments whose body contains the emote name as a substring
(the reference quantity for count conservation). -/
def countMatching (cs : List Comment) (e : String) : Nat :=
  cs.countP (fun c => containsSub c.body e)

/-- Sum of all `use_index` counts in a user list. -/
def sumCounts (users : List EmoteUser) : Nat :=
  (users.map EmoteUser.use_index).sum

/-! ## RollupAggregator (`post_process`)

The two accumulators `daily_emote_totals` and `user_totals` are nested
dicts `Dict (Dict Nat)`.  Both are updated with the same Python idiom:
create the outer key with an empty dict if absent, then set or add at the
inner key. -/

/-- The Python guard `if k1 not in d: d[k1] = {}`. -/
def outerInit (d : Dict (Dict Nat)) (k1 : String) : Dict (Dict Nat) :=
  if dmem d k1 then d else dset d k1 []

/-- The Python pattern
`if k not in sub: sub[k] = v else: sub[k] += v` on a flat counter dict. -/
def bumpKey (sub : Dict Nat) (k : String) (v : Nat) : Dict Nat :=
  match dget sub k with
  | none => dset sub k v
  | some old => dset sub k (old + v)

/-- The combined Python pattern
`if k1 not in d: d[k1] = {}` / `if k2 not in d[k1]: d[k1][k2] = v else: d[k1][k2] += v`. -/
def addNested (d : Dict (Dict Nat)) (k1 k2 : String) (v : Nat) : Dict (Dict Nat) :=
  dset (outerInit d k1) k1 (bumpKey ((dget (outerInit d k1) k1).getD []) k2 v)

/-- Body of the `for emote in vod.emotes` loop: accumulate the per-user
totals while summing `emote_count`, then add the per-video total into the
daily rollup under the video's day key. -/
def processEmote (dk : String) (acc : Dict (Dict Nat) × Dict (Dict Nat))
    (emote : EmoteInfo) : Dict (Dict Nat) × Dict (Dict Nat) :=
  let step := emote.users.foldl
    (fun (p : Nat × Dict (Dict Nat)) user =>
      (p.1 + user.use_index, addNested p.2 emote.name user.display_name user.use_index))
    (0, acc.2)
  (addNested acc.1 emote.name dk step.1, step.2)

/-- Body of the `for vod in emote_stats.data.values()` loop. -/
def processVod (dateKey : Nat → String) (acc : Dict (Dict Nat) × Dict (Dict Nat))
    (vod : VodEmoteStat) : Dict (Dict Nat) × Dict (Dict Nat) :=
  vod.emotes.foldl (processEmote (dateKey vod.info.created)) acc

/-- The unsorted accumulation pass of `post_process`:
`(daily_emote_totals, user_totals)` right before the two sorting loops. -/
def rollups_raw (dateKey : Nat → String) (state : EmoteState) :
    Dict (Dict Nat) × Dict (Dict Nat) :=
  (dvalues state).foldl (processVod dateKey) ([], [])

/-- `sorted(daily_emote_totals[key].items())`: Python sorts the `(day, count)`
pairs lexicographically as tuples. -/
def dailyLe (a b : String × Nat) : Bool :=
  decide (a.1 < b.1) || (decide (a.1 = b.1) && decide (a.2 ≤ b.2))

/-- `sorted(user_totals[key].items(), key=lambda item: item[1], reverse=True)`:
stable descending sort by count. -/
def userLe (a b : String × Nat) : Bool :=
  decide (b.2 ≤ a.2)

/-- `post_process` as a pure function: the pair
`(daily_emote_totals, user_totals)` finally written to the two JSON files,
after the per-emote sorting loops. -/
def post_process (dateKey : Nat → String) (state : EmoteState) :
    Dict (Dict Nat) × Dict (Dict Nat) :=
  let raw := rollups_raw dateKey state
  (raw.1.map (fun p => (p.1, p.2.mergeSort dailyLe)),
   raw.2.map (fun p => (p.1, p.2.mergeSort userLe)))

/-! ## Orchestration (the `__main__` block)

External collaborators are abstracted into an environment: the config file
and state file contents (`none` when the file is absent), the VOD list
returned by `get_current_vods`, and `get_chat_json` as a function that
either yields a transcript or fails (`none`).  The files the run may write
are gathered in `Artifacts`; a write is modelled by replacing the
corresponding field at the point in control flow where Python performs it. -/

/-- The parsed config JSON: `channel_name` and the emote list. -/
structure EmoteConfig where
  channel_name : String
  emotes : List String
deriving DecidableEq, Repr

/-- Error kinds a run can abort with.  `sourceNotFound` corresponds to
`FileNotFoundError` (missing config file, missing state file at a configured
path, or missing rollup write directory); `fetchFailure` to a failed
`get_chat_json` invocation. -/
inductive RunError where
  | sourceNotFound
  | fetchFailure
deriving DecidableEq, Repr

/-- The environment of one run. -/
structure RunEnv where
  /-- the `EMOTE_STAT_JSON` setting; Python tests its truthiness, `""` is falsy -/
  emote_stats_path : String
  /-- parsed contents of the config file, `none` when the file is absent -/
  config_file : Option EmoteConfig
  /-- parsed contents of the persisted state file, `none` when absent -/
  state_file : Option EmoteState
  /-- whether the rollup write directory exists (`os.path.exists(write_path)`) -/
  write_dir : Bool
  /-- result of `get_current_vods` -/
  vod_list : List VodInfo
  /-- `get_chat_json`, `none` on failure -/
  fetchChat : String → Option ChatJson
  /-- the day-key conversion used by `post_process` -/
  dateKey : Nat → String

/-- The persisted outputs: state file and the two rollup files. -/
structure Artifacts where
  state_out : Option EmoteState
  daily_out : Option (Dict (Dict Nat))
  user_out : Option (Dict (Dict Nat))
deriving DecidableEq, Repr

/-- Lines 217–222 of `main.py`: if the configured path is truthy the state
file is opened (raising when absent); only an empty/unset path yields a
fresh empty `EmoteStateContainer`. -/
def loadState (env : RunEnv) : Except RunError EmoteState :=
  if env.emote_stats_path ≠ "" then
    match env.state_file with
    | some s => Except.ok s
    | none => Except.error RunError.sourceNotFound
  else
    Except.ok []

/-- The `for vod in vod_list` loop (lines 227–244): skip ids already in the
state, otherwise fetch the chat, scan it, insert the record and flip
`updated`.  A fetch failure aborts the whole loop. -/
def processVods (fetch : String → Option ChatJson) (emotes : List String)
    (vods : List VodInfo) (state : EmoteState) (updated : Bool) :
    Except RunError (EmoteState × Bool) :=
  match vods with
  | [] => Except.ok (state, updated)
  | vod :: rest =>
      if dmem state vod.id then
        processVods fetch emotes rest state updated
      else
        match fetch vod.id with
        | none => Except.error RunError.fetchFailure
        | some chat =>
            processVods fetch emotes rest
              (dset state vod.id { info := vod, emotes := get_emote_users chat emotes })
              true

/-- One full run of the `__main__` block, threading the persisted artifacts:
on any abort the artifacts keep whatever had been written so far (nothing is
written inside the VOD loop; the state file is written before `post_process`
runs its write-directory check). -/
def run (env : RunEnv) (art : Artifacts) : Artifacts × Option RunError :=
  match env.config_file with
  | none => (art, some RunError.sourceNotFound)
  | some config =>
    match loadState env with
    | Except.error e => (art, some e)
    | Except.ok state0 =>
      match processVods env.fetchChat config.emotes env.vod_list state0 false with
      | Except.error e => (art, some e)
      | Except.ok (state, updated) =>
        if updated then
          let art1 := { art with state_out := some state }
          if env.write_dir then
            let rolls := post_process env.dateKey state
            ({ art1 with daily_out := some rolls.1, user_out := some rolls.2 }, none)
          else
            (art1, some RunError.sourceNotFound)
        else
          (art, none)

/-! ## Reference quantities

These definitions restate what the spec asks of the rollups; they are the
right-hand sides of the correctness theorems below. -/

/-- Sum of the inner values of a flat `Dict Nat`. -/
def sumValues (d : Dict Nat) : Nat :=
  (dvalues d).sum

/-- `d[k1][k2]`, defaulting to `0` when either key is absent. -/
def nestedGetD (d : Dict (Dict Nat)) (k1 k2 : String) : Nat :=
  (dget ((dget d k1).getD []) k2).getD 0

/-- Sum of the inner dict at `k1` (0 when the outer key is absent). -/
def nestedTotal (d : Dict (Dict Nat)) (k1 : String) : Nat :=
  sumValues ((dget d k1).getD [])

/-- Total occurrences of emote `e` among a list of `EmoteInfo`s. -/
def emotesTotal (ems : List EmoteInfo) (e : String) : Nat :=
  ((ems.filter (fun em => em.name = e)).map (fun em => sumCounts em.users)).sum

/-- Total occurrences of emote `e` in one video record. -/
def vodEmoteTotal (vod : VodEmoteStat) (e : String) : Nat :=
  emotesTotal vod.emotes e

/-- Total occurrences of emote `e` across all video records of a state. -/
def stateEmoteTotal (state : EmoteState) (e : String) : Nat :=
  ((dvalues state).map (fun vod => vodEmoteTotal vod e)).sum

/-- The spec's daily rollup value: the sum of per-video totals of emote `e`
over the records whose day key is `dk`. -/
def dailySpec (dateKey : Nat → String) (state : EmoteState) (e dk : String) : Nat :=
  (((dvalues state).filter (fun vod => dateKey vod.info.created = dk)).map
    (fun vod => vodEmoteTotal vod e)).sum

/-! ## Association-list (dict) lemmas -/

theorem dget_dset_self {β : Type} (d : Dict β) (k : String) (v : β) :
    dget (dset d k v) k = some v := by
  induction d with
  | nil => simp [dset, dget]
  | cons p rest ih =>
      by_cases h : p.1 = k
      · simp [dset, h, dget]
      · simp [dset, h, dget, ih]

theorem dget_dset_of_ne {β : Type} (d : Dict β) {k j : String} (v : β) (h : k ≠ j) :
    dget (dset d k v) j = dget d j := by
  induction d with
  | nil => simp [dset, dget, h]
  | cons p rest ih =>
      obtain ⟨k', v'⟩ := p
      by_cases hp : k' = k
      · subst hp
        simp [dset, dget, h]
      · simp [dset, hp, dget, ih]

theorem dget_none_iff {β : Type} (d : Dict β) (k : String) :
    dget d k = none ↔ k ∉ d.map Prod.fst := by
  induction d with
  | nil => simp [dget]
  | cons p rest ih =>
      obtain ⟨k', v'⟩ := p
      by_cases h : k' = k
      · subst h
        simp [dget]
      · simp [dget, h, ih, Ne.symm h]

theorem mem_of_dget_eq_some {β : Type} {d : Dict β} {k : String} {v : β}
    (h : dget d k = some v) : (k, v) ∈ d := by
  induction d with
  | nil => simp [dget] at h
  | cons p rest ih =>
      obtain ⟨k', v'⟩ := p
      by_cases hp : k' = k
      · subst hp
        simp [dget] at h
        simp [h]
      · simp [dget, hp] at h
        simp [ih h]

theorem dget_eq_some_of_mem {β : Type} {d : Dict β} {k : String} {v : β}
    (hnd : (d.map Prod.fst).Nodup) (h : (k, v) ∈ d) : dget d k = some v := by
  induction d with
  | nil => simp at h
  | cons p rest ih =>
      obtain ⟨k', v'⟩ := p
      rw [List.map_cons, List.nodup_cons] at hnd
      rcases List.mem_cons.mp h with h | h
      · obtain ⟨h1, h2⟩ := Prod.ext_iff.mp h
        simp only [] at h1 h2
        subst h1
        simp [dget, h2]
      · have hk : k ∈ rest.map Prod.fst := List.mem_map_of_mem Prod.fst h
        have hne : k' ≠ k := fun he => hnd.1 (he ▸ hk)
        simp [dget, hne]
        exact ih hnd.2 h

theorem dget_congr_perm {β : Type} {d d' : Dict β}
    (hnd : (d.map Prod.fst).Nodup) (hp : d.Perm d') (k : String) :
    dget d k = dget d' k := by
  have hnd' : (d'.map Prod.fst).Nodup := ((hp.map Prod.fst).nodup_iff).mp hnd
  cases hv : dget d k with
  | none =>
      rw [dget_none_iff] at hv
      have : k ∉ d'.map Prod.fst := fun hk => hv ((hp.map Prod.fst).mem_iff.mpr hk)
      exact ((dget_none_iff d' k).mpr this).symm
  | some v =>
      exact (dget_eq_some_of_mem hnd' (hp.mem_iff.mp (mem_of_dget_eq_some hv))).symm

theorem dget_mapValues {β γ : Type} (d : Dict β) (f : β → γ) (k : String) :
    dget (d.map (fun p => (p.1, f p.2))) k = (dget d k).map f := by
  induction d with
  | nil => simp [dget]
  | cons p rest ih =>
      by_cases h : p.1 = k
      · simp [dget, h]
      · simp [dget, h, ih]

theorem dmem_append {β : Type} (d1 d2 : Dict β) (k : String) :
    dmem (d1 ++ d2) k = (dmem d1 k || dmem d2 k) := by
  induction d1 with
  | nil => simp [dmem, dget]
  | cons p rest ih =>
      obtain ⟨k', v'⟩ := p
      by_cases h : k' = k
      · simp [dmem, dget, h]
      · simp only [List.cons_append]
        simp only [dmem, dget, h, if_false] at ih ⊢
        exact ih

theorem dget_append_left {β : Type} (d1 d2 : Dict β) (k : String)
    (h : dmem d1 k = true) : dget (d1 ++ d2) k = dget d1 k := by
  induction d1 with
  | nil => simp [dmem, dget] at h
  | cons p rest ih =>
      obtain ⟨k', v'⟩ := p
      by_cases hp : k' = k
      · simp [dget, hp]
      · have h' : dmem rest k = true := by
          simpa [dmem, dget, hp] using h
        simp [dget, hp, ih h']

theorem dset_append_of_not_mem {β : Type} (d : Dict β) (k : String) (v : β)
    (h : dmem d k = false) : dset d k v = d ++ [(k, v)] := by
  induction d with
  | nil => simp [dset]
  | cons p rest ih =>
      obtain ⟨k', v'⟩ := p
      by_cases hp : k' = k
      · simp [dmem, dget, hp] at h
      · have h' : dmem rest k = false := by
          simpa [dmem, dget, hp] using h
        simp [dset, hp, ih h']

/-! ## C2: count conservation in the scanner -/

theorem sumCounts_append (acc : List EmoteUser) (u : EmoteUser) :
    sumCounts (acc ++ [u]) = sumCounts acc + u.use_index := by
  simp [sumCounts]

theorem sumCounts_bumpUser (acc : List EmoteUser) (n : String)
    (h : hasUser acc n = true) :
    sumCounts (bumpUser acc n) = sumCounts acc + 1 := by
  induction acc with
  | nil => simp [hasUser] at h
  | cons u rest ih =>
      by_cases hu : u.display_name = n
      · simp [bumpUser, hu, sumCounts]
        omega
      · have h' : hasUser rest n = true := by
          simpa [hasUser, hu] using h
        have := ih h'
        simp [bumpUser, hu, sumCounts] at this ⊢
        omega

theorem sumCounts_scanComments (e : String) (cs : List Comment) (acc : List EmoteUser) :
    sumCounts (scanComments e cs acc) = sumCounts acc + countMatching cs e := by
  induction cs generalizing acc with
  | nil => simp [scanComments, countMatching]
  | cons c rest ih =>
      rw [scanComments]
      by_cases hm : containsSub c.body e = true
      · by_cases hu : hasUser acc c.commenter = true
        · rw [if_pos hm, if_pos hu, ih, sumCounts_bumpUser acc c.commenter hu]
          simp [countMatching, List.countP_cons, hm]
          omega
        · rw [if_pos hm, if_neg hu, ih, sumCounts_append]
          simp [countMatching, List.countP_cons, hm]
          omega
      · rw [if_neg hm, ih]
        simp [countMatching, List.countP_cons, hm]

/-- C2: for every transcript and every target emote name, the sum of all
`use_index` counts in the scanner's `EmoteInfo` for that emote equals the
number of comments whose body contains the emote name as a literal
substring — one occurrence per matching comment, not per substring
occurrence inside a body.  The second conjunct is the spec's Scenario A:
user B commenting "Pog Pog" contributes count 1 for emote "Pog". -/
theorem get_emote_users_count_conservation :
    (∀ (chat : ChatJson) (names : List String),
        (get_emote_users chat names).map (fun i => sumCounts i.users)
          = names.map (fun e => countMatching chat.comments e))
    ∧ get_emote_users
        { videoId := "vid",
          comments := [{ commenter := "A", body := "hi Pog" },
                       { commenter := "B", body := "Pog Pog" },
                       { commenter := "A", body := "no emote here" }] } ["Pog"]
      = [{ name := "Pog",
           users := [{ display_name := "A", use_index := 1 },
                     { display_name := "B", use_index := 1 }] }] := by
  constructor
  · intro chat names
    rw [get_emote_users, List.map_map]
    refine List.map_congr_left ?_
    intro e _
    simp only [Function.comp]
    rw [sumCounts_scanComments]
    simp [sumCounts]
  · decide

/-! ## C7: shape of the scanner output -/

/-- Whether user `n` has at least one comment in `cs` containing emote `e`. -/
def didMatch (cs : List Comment) (e n : String) : Bool :=
  cs.any (fun c => c.commenter = n && containsSub c.body e)

theorem map_name_bumpUser (acc : List EmoteUser) (n : String) :
    (bumpUser acc n).map EmoteUser.display_name = acc.map EmoteUser.display_name := by
  induction acc with
  | nil => simp [bumpUser]
  | cons u rest ih =>
      by_cases hu : u.display_name = n
      · simp [bumpUser, hu]
      · simp [bumpUser, hu, ih]

theorem hasUser_eq_mem_map (acc : List EmoteUser) (n : String) :
    hasUser acc n = true ↔ n ∈ acc.map EmoteUser.display_name := by
  simp [hasUser, List.any_eq_true]

theorem hasUser_bumpUser (acc : List EmoteUser) (n m : String) :
    hasUser (bumpUser acc n) m = hasUser acc m := by
  by_cases h : hasUser (bumpUser acc n) m = true
  · rw [h]
    rw [hasUser_eq_mem_map, map_name_bumpUser] at h
    exact ((hasUser_eq_mem_map acc m).mpr h).symm
  · rw [Bool.not_eq_true] at h
    rw [h]
    symm
    rw [Bool.eq_false_iff]
    intro hc
    rw [Bool.eq_false_iff] at h
    exact h (by rw [hasUser_eq_mem_map, map_name_bumpUser, ← hasUser_eq_mem_map]; exact hc)

theorem nodup_names_scanComments (e : String) (cs : List Comment)
    (acc : List EmoteUser) (hnd : (acc.map EmoteUser.display_name).Nodup) :
    ((scanComments e cs acc).map EmoteUser.display_name).Nodup := by
  induction cs generalizing acc with
  | nil => simpa [scanComments] using hnd
  | cons c rest ih =>
      rw [scanComments]
      by_cases hm : containsSub c.body e = true
      · by_cases hu : hasUser acc c.commenter = true
        · rw [if_pos hm, if_pos hu]
          exact ih _ (by rwa [map_name_bumpUser])
        · rw [if_pos hm, if_neg hu]
          refine ih _ ?_
          rw [List.map_append]
          simp only [List.map_cons, List.map_nil]
          rw [List.nodup_append]
          refine ⟨hnd, List.nodup_singleton _, ?_⟩
          intro a ha hb
          simp at hb
          subst hb
          exact hu ((hasUser_eq_mem_map acc c.commenter).mpr ha)
      · rw [if_neg hm]
        exact ih _ hnd

theorem mem_bumpUser {acc : List EmoteUser} {n : String} {u : EmoteUser}
    (h : u ∈ bumpUser acc n) :
    u ∈ acc ∨ ∃ v ∈ acc, u = { v with use_index := v.use_index + 1 } := by
  induction acc with
  | nil => simp [bumpUser] at h
  | cons w rest ih =>
      by_cases hw : w.display_name = n
      · simp [bumpUser, hw] at h
        rcases h with h | h
        · right
          refine ⟨w, by simp, ?_⟩
          rw [h]
          simp [hw]
        · left
          simp [h]
      · simp [bumpUser, hw] at h
        rcases h with h | h
        · left
          simp [h]
        · rcases ih h with h' | ⟨v, hv, he⟩
          · left
            simp [h']
          · right
            exact ⟨v, by simp [hv], he⟩

theorem counts_pos_scanComments (e : String) (cs : List Comment)
    (acc : List EmoteUser) (hpos : ∀ u ∈ acc, 1 ≤ u.use_index) :
    ∀ u ∈ scanComments e cs acc, 1 ≤ u.use_index := by
  induction cs generalizing acc with
  | nil => simpa [scanComments] using hpos
  | cons c rest ih =>
      rw [scanComments]
      by_cases hm : containsSub c.body e = true
      · by_cases hu : hasUser acc c.commenter = true
        · rw [if_pos hm, if_pos hu]
          refine ih _ ?_
          intro u hub
          rcases mem_bumpUser hub with h | ⟨v, _, he⟩
          · exact hpos u h
          · simp [he]
        · rw [if_pos hm, if_neg hu]
          refine ih _ ?_
          intro u hu'
          rcases List.mem_append.mp hu' with h | h
          · exact hpos u h
          · simp at h
            simp [h]
      · rw [if_neg hm]
        exact ih _ hpos

theorem hasUser_scanComments (e : String) (cs : List Comment)
    (acc : List EmoteUser) (n : String) :
    hasUser (scanComments e cs acc) n = (hasUser acc n || didMatch cs e n) := by
  induction cs generalizing acc with
  | nil => simp [scanComments, didMatch]
  | cons c rest ih =>
      rw [scanComments]
      by_cases hm : containsSub c.body e = true
      · by_cases hu : hasUser acc c.commenter = true
        · rw [if_pos hm, if_pos hu, ih, hasUser_bumpUser]
          by_cases hcn : c.commenter = n
          · subst hcn
            simp [didMatch, hu, hm]
          · simp [didMatch, hcn]
        · rw [if_pos hm, if_neg hu, ih]
          have happ : hasUser (acc ++ [{ display_name := c.commenter, use_index := 1 }]) n
              = (hasUser acc n || decide (c.commenter = n)) := by
            simp [hasUser]
          rw [happ]
          by_cases hcn : c.commenter = n
          · subst hcn
            simp [didMatch, hm]
          · simp [didMatch, hcn]
      · rw [if_neg hm]
        rw [ih]
        simp [didMatch, hm]

/-- C7: for every transcript and target emote-name list, the scanner returns
exactly one `EmoteInfo` per target name, in input order (an emote that never
matched yields an entry with an empty user list); each entry holds one
`EmoteUser` per distinct user who matched at least once, each with count ≥ 1,
and users with zero matches for that emote are excluded. -/
theorem get_emote_users_shape (chat : ChatJson) (names : List String) :
    (get_emote_users chat names).map EmoteInfo.name = names
    ∧ ∀ info, info ∈ get_emote_users chat names →
        ((info.users.map EmoteUser.display_name).Nodup
        ∧ (∀ u ∈ info.users, 1 ≤ u.use_index)
        ∧ (∀ u ∈ info.users, ∃ c ∈ chat.comments,
              c.commenter = u.display_name ∧ containsSub c.body info.name = true)
        ∧ (∀ n : String,
              (∃ c ∈ chat.comments, c.commenter = n ∧ containsSub c.body info.name = true) →
              ∃ u ∈ info.users, u.display_name = n)) := by
  constructor
  · rw [get_emote_users, List.map_map]
    exact (List.map_congr_left fun e _ => rfl).trans (List.map_id names)
  · intro info hinfo
    rw [get_emote_users, List.mem_map] at hinfo
    obtain ⟨e, -, he⟩ := hinfo
    subst he
    refine ⟨nodup_names_scanComments e chat.comments [] (by simp),
            counts_pos_scanComments e chat.comments [] (by simp), ?_, ?_⟩
    · intro u hu
      have hmem : hasUser (scanComments e chat.comments []) u.display_name = true :=
        (hasUser_eq_mem_map _ _).mpr (List.mem_map_of_mem EmoteUser.display_name hu)
      rw [hasUser_scanComments] at hmem
      simp [hasUser] at hmem
      rw [didMatch, List.any_eq_true] at hmem
      obtain ⟨c, hc, hm⟩ := hmem
      rw [Bool.and_eq_true, decide_eq_true_iff] at hm
      exact ⟨c, hc, hm.1, hm.2⟩
    · intro n hn
      obtain ⟨c, hc, hcn, hcb⟩ := hn
      have hd : didMatch chat.comments e n = true := by
        rw [didMatch, List.any_eq_true]
        exact ⟨c, hc, by rw [Bool.and_eq_true, decide_eq_true_iff]; exact ⟨hcn, hcb⟩⟩
      have : hasUser (scanComments e chat.comments []) n = true := by
        rw [hasUser_scanComments]
        simp [hasUser, hd]
      rw [hasUser, List.any_eq_true] at this
      obtain ⟨u, hu, hun⟩ := this
      exact ⟨u, hu, by simpa using hun⟩

/-- Witness for C7 at the spec's Scenario A: user "B" matched at least once,
so "B" appears in the scanner output for "Pog". -/
theorem get_emote_users_shape_witness :
    ∃ u ∈ ({ name := "Pog",
             users := [{ display_name := "A", use_index := 1 },
                       { display_name := "B", use_index := 1 }] } : EmoteInfo).users,
      u.display_name = "B" :=
  ((get_emote_users_shape
      { videoId := "vid",
        comments := [{ commenter := "A", body := "hi Pog" },
                     { commenter := "B", body := "Pog Pog" },
                     { commenter := "A", body := "no emote here" }] }
      ["Pog"]).2
    { name := "Pog",
      users := [{ display_name := "A", use_index := 1 },
                { display_name := "B", use_index := 1 }] }
    (by decide)).2.2.2 "B"
    ⟨{ commenter := "B", body := "Pog Pog" }, by decide, by decide, by decide⟩

/-! ## Aggregation lemmas (`addNested` and the `post_process` folds) -/

theorem dget_outerInit_self (d : Dict (Dict Nat)) (k1 : String) :
    dget (outerInit d k1) k1 = some ((dget d k1).getD []) := by
  rw [outerInit]
  by_cases hm : dmem d k1 = true
  · rw [if_pos hm]
    rw [dmem] at hm
    cases hg : dget d k1 with
    | none => rw [hg] at hm; simp at hm
    | some s => simp [hg]
  · simp only [Bool.not_eq_true] at hm
    rw [hm]
    simp only [Bool.false_eq_true, if_false]
    rw [dget_dset_self]
    rw [dmem] at hm
    cases hg : dget d k1 with
    | none => simp
    | some s => rw [hg] at hm; simp at hm

theorem dget_outerInit_ne (d : Dict (Dict Nat)) (k1 j : String) (h : j ≠ k1) :
    dget (outerInit d k1) j = dget d j := by
  rw [outerInit]
  by_cases hm : dmem d k1 = true
  · rw [if_pos hm]
  · simp only [Bool.not_eq_true] at hm
    rw [hm]
    simp only [Bool.false_eq_true, if_false]
    exact dget_dset_of_ne d [] (fun he => h he.symm)

theorem dget_addNested_self (d : Dict (Dict Nat)) (k1 k2 : String) (v : Nat) :
    dget (addNested d k1 k2 v) k1 = some (bumpKey ((dget d k1).getD []) k2 v) := by
  rw [addNested, dget_dset_self, dget_outerInit_self]
  simp

theorem dget_addNested_ne (d : Dict (Dict Nat)) (k1 k2 j : String) (v : Nat)
    (h : j ≠ k1) : dget (addNested d k1 k2 v) j = dget d j := by
  rw [addNested, dget_dset_of_ne _ _ (fun he => h he.symm), dget_outerInit_ne d k1 j h]

theorem dget_bumpKey_self (sub : Dict Nat) (k : String) (v : Nat) :
    dget (bumpKey sub k v) k = some ((dget sub k).getD 0 + v) := by
  rw [bumpKey]
  cases hg : dget sub k with
  | none => rw [dget_dset_self]; simp
  | some old => rw [dget_dset_self]; simp

theorem dget_bumpKey_ne (sub : Dict Nat) (k j : String) (v : Nat) (h : j ≠ k) :
    dget (bumpKey sub k v) j = dget sub j := by
  rw [bumpKey]
  cases hg : dget sub k with
  | none => exact dget_dset_of_ne _ _ (fun he => h he.symm)
  | some old => exact dget_dset_of_ne _ _ (fun he => h he.symm)

theorem sumValues_dset_of_none (sub : Dict Nat) (k : String) (v : Nat)
    (h : dget sub k = none) : sumValues (dset sub k v) = sumValues sub + v := by
  rw [dset_append_of_not_mem sub k v (by rw [dmem, h]; rfl)]
  simp [sumValues, dvalues]

theorem sumValues_dset_of_some (sub : Dict Nat) (k : String) (v old : Nat)
    (h : dget sub k = some old) : sumValues (dset sub k (old + v)) = sumValues sub + v := by
  induction sub with
  | nil => simp [dget] at h
  | cons p rest ih =>
      obtain ⟨k', v'⟩ := p
      by_cases hp : k' = k
      · subst hp
        simp [dget] at h
        simp [dset, sumValues, dvalues]
        omega
      · simp [dget, hp] at h
        simp [dset, hp, sumValues, dvalues] at ih ⊢
        rw [ih h]
        omega

theorem sumValues_bumpKey (sub : Dict Nat) (k : String) (v : Nat) :
    sumValues (bumpKey sub k v) = sumValues sub + v := by
  rw [bumpKey]
  cases hg : dget sub k with
  | none => exact sumValues_dset_of_none sub k v hg
  | some old => exact sumValues_dset_of_some sub k v old hg

theorem nestedGetD_addNested (d : Dict (Dict Nat)) (k1 k2 j1 j2 : String) (v : Nat) :
    nestedGetD (addNested d k1 k2 v) j1 j2 =
      nestedGetD d j1 j2 + (if j1 = k1 ∧ j2 = k2 then v else 0) := by
  by_cases h1 : j1 = k1
  · subst h1
    rw [nestedGetD, dget_addNested_self]
    by_cases h2 : j2 = k2
    · subst h2
      rw [Option.getD_some, dget_bumpKey_self]
      simp [nestedGetD]
    · rw [Option.getD_some, dget_bumpKey_ne _ _ _ _ h2]
      simp [nestedGetD, h2]
  · rw [nestedGetD, dget_addNested_ne _ _ _ _ _ h1]
    simp [nestedGetD, h1]

theorem nestedTotal_addNested (d : Dict (Dict Nat)) (k1 k2 j : String) (v : Nat) :
    nestedTotal (addNested d k1 k2 v) j = nestedTotal d j + (if j = k1 then v else 0) := by
  by_cases h : j = k1
  · subst h
    rw [nestedTotal, dget_addNested_self, Option.getD_some, sumValues_bumpKey]
    simp [nestedTotal]
  · rw [nestedTotal, dget_addNested_ne _ _ _ _ _ h]
    simp [nestedTotal, h]

theorem emoteUserFold_eq (e : String) (users : List EmoteUser) (n : Nat)
    (d : Dict (Dict Nat)) :
    users.foldl
        (fun p u => (p.1 + u.use_index, addNested p.2 e u.display_name u.use_index)) (n, d)
      = (n + sumCounts users,
         users.foldl (fun d2 u => addNested d2 e u.display_name u.use_index) d) := by
  induction users generalizing n d with
  | nil => simp [sumCounts]
  | cons u rest ih =>
      simp only [List.foldl_cons]
      rw [ih]
      have hs : n + u.use_index + sumCounts rest = n + sumCounts (u :: rest) := by
        simp [sumCounts]
        omega
      rw [hs]

theorem processEmote_eq (dk : String) (acc : Dict (Dict Nat) × Dict (Dict Nat))
    (em : EmoteInfo) :
    processEmote dk acc em =
      (addNested acc.1 em.name dk (sumCounts em.users),
       em.users.foldl (fun d2 u => addNested d2 em.name u.display_name u.use_index) acc.2) := by
  rw [processEmote, emoteUserFold_eq]
  simp

theorem nestedTotal_userFold (e : String) (users : List EmoteUser)
    (d : Dict (Dict Nat)) (j : String) :
    nestedTotal (users.foldl (fun d2 u => addNested d2 e u.display_name u.use_index) d) j
      = nestedTotal d j + (if j = e then sumCounts users else 0) := by
  induction users generalizing d with
  | nil => simp [sumCounts]
  | cons u rest ih =>
      rw [List.foldl_cons, ih, nestedTotal_addNested]
      by_cases h : j = e <;> simp [h, sumCounts] <;> omega

theorem emotesTotal_cons (em : EmoteInfo) (rest : List EmoteInfo) (e : String) :
    emotesTotal (em :: rest) e
      = (if em.name = e then sumCounts em.users else 0) + emotesTotal rest e := by
  by_cases h : em.name = e <;> simp [emotesTotal, List.filter_cons, h]

theorem nestedGetD_emoteFold_daily (dk : String) (ems : List EmoteInfo)
    (acc : Dict (Dict Nat) × Dict (Dict Nat)) (j1 j2 : String) :
    nestedGetD (ems.foldl (processEmote dk) acc).1 j1 j2
      = nestedGetD acc.1 j1 j2 + (if j2 = dk then emotesTotal ems j1 else 0) := by
  induction ems generalizing acc with
  | nil => simp [emotesTotal]
  | cons em rest ih =>
      rw [List.foldl_cons, ih, processEmote_eq]
      simp only []
      rw [nestedGetD_addNested, emotesTotal_cons]
      by_cases h1 : j1 = em.name <;> by_cases h2 : j2 = dk <;>
        simp [h1, h2, Ne.symm, eq_comm] <;> omega

theorem nestedTotal_emoteFold_daily (dk : String) (ems : List EmoteInfo)
    (acc : Dict (Dict Nat) × Dict (Dict Nat)) (j : String) :
    nestedTotal (ems.foldl (processEmote dk) acc).1 j
      = nestedTotal acc.1 j + emotesTotal ems j := by
  induction ems generalizing acc with
  | nil => simp [emotesTotal]
  | cons em rest ih =>
      rw [List.foldl_cons, ih, processEmote_eq]
      simp only []
      rw [nestedTotal_addNested, emotesTotal_cons]
      by_cases h : j = em.name <;> simp [h, eq_comm] <;> omega

theorem nestedTotal_emoteFold_user (dk : String) (ems : List EmoteInfo)
    (acc : Dict (Dict Nat) × Dict (Dict Nat)) (j : String) :
    nestedTotal (ems.foldl (processEmote dk) acc).2 j
      = nestedTotal acc.2 j + emotesTotal ems j := by
  induction ems generalizing acc with
  | nil => simp [emotesTotal]
  | cons em rest ih =>
      rw [List.foldl_cons, ih, processEmote_eq]
      simp only []
      rw [nestedTotal_userFold, emotesTotal_cons]
      by_cases h : j = em.name <;> simp [h, eq_comm] <;> omega

theorem vodFold_daily_getD (dateKey : Nat → String) (vods : List VodEmoteStat)
    (acc : Dict (Dict Nat) × Dict (Dict Nat)) (j1 j2 : String) :
    nestedGetD (vods.foldl (processVod dateKey) acc).1 j1 j2
      = nestedGetD acc.1 j1 j2
        + ((vods.filter (fun vod => dateKey vod.info.created = j2)).map
            (fun vod => vodEmoteTotal vod j1)).sum := by
  induction vods generalizing acc with
  | nil => simp
  | cons vod rest ih =>
      rw [List.foldl_cons, ih, processVod, nestedGetD_emoteFold_daily]
      by_cases h : dateKey vod.info.created = j2
      · rw [if_pos h.symm, List.filter_cons_of_pos (by simp [h]),
            List.map_cons, List.sum_cons]
        simp only [vodEmoteTotal]
        omega
      · rw [if_neg (fun hc => h hc.symm), List.filter_cons_of_neg (by simp [h])]
        omega

theorem vodFold_daily_total (dateKey : Nat → String) (vods : List VodEmoteStat)
    (acc : Dict (Dict Nat) × Dict (Dict Nat)) (j : String) :
    nestedTotal (vods.foldl (processVod dateKey) acc).1 j
      = nestedTotal acc.1 j + (vods.map (fun vod => vodEmoteTotal vod j)).sum := by
  induction vods generalizing acc with
  | nil => simp
  | cons vod rest ih =>
      rw [List.foldl_cons, ih, processVod, nestedTotal_emoteFold_daily]
      simp [vodEmoteTotal]
      omega

theorem vodFold_user_total (dateKey : Nat → String) (vods : List VodEmoteStat)
    (acc : Dict (Dict Nat) × Dict (Dict Nat)) (j : String) :
    nestedTotal (vods.foldl (processVod dateKey) acc).2 j
      = nestedTotal acc.2 j + (vods.map (fun vod => vodEmoteTotal vod j)).sum := by
  induction vods generalizing acc with
  | nil => simp
  | cons vod rest ih =>
      rw [List.foldl_cons, ih, processVod, nestedTotal_emoteFold_user]
      simp [vodEmoteTotal]
      omega

theorem rollups_raw_daily_getD (dateKey : Nat → String) (state : EmoteState)
    (j1 j2 : String) :
    nestedGetD (rollups_raw dateKey state).1 j1 j2 = dailySpec dateKey state j1 j2 := by
  rw [rollups_raw, vodFold_daily_getD, dailySpec]
  simp [nestedGetD, dget]

theorem rollups_raw_daily_total (dateKey : Nat → String) (state : EmoteState) (j : String) :
    nestedTotal (rollups_raw dateKey state).1 j = stateEmoteTotal state j := by
  rw [rollups_raw, vodFold_daily_total, stateEmoteTotal]
  simp [nestedTotal, sumValues, dvalues, dget]

theorem rollups_raw_user_total (dateKey : Nat → String) (state : EmoteState) (j : String) :
    nestedTotal (rollups_raw dateKey state).2 j = stateEmoteTotal state j := by
  rw [rollups_raw, vodFold_user_total, stateEmoteTotal]
  simp [nestedTotal, sumValues, dvalues, dget]

/-! ## Sorting preserves contents -/

theorem sumValues_mergeSort (sub : Dict Nat) (le : (String × Nat) → (String × Nat) → Bool) :
    sumValues (sub.mergeSort le) = sumValues sub := by
  have hp : (sub.mergeSort le).Perm sub := List.mergeSort_perm sub le
  exact (hp.map Prod.snd).sum_eq

theorem dget_map_mergeSort (d : Dict (Dict Nat))
    (le : (String × Nat) → (String × Nat) → Bool) (k : String) :
    dget (d.map (fun p => (p.1, p.2.mergeSort le))) k
      = (dget d k).map (fun sub => sub.mergeSort le) :=
  dget_mapValues d (fun sub => sub.mergeSort le) k

theorem nestedTotal_post_process_daily (dateKey : Nat → String) (state : EmoteState)
    (j : String) :
    nestedTotal (post_process dateKey state).1 j
      = nestedTotal (rollups_raw dateKey state).1 j := by
  rw [post_process]
  simp only [nestedTotal]
  rw [dget_map_mergeSort]
  cases hg : dget (rollups_raw dateKey state).1 j with
  | none => simp
  | some sub => simp [sumValues_mergeSort]

theorem nestedTotal_post_process_user (dateKey : Nat → String) (state : EmoteState)
    (j : String) :
    nestedTotal (post_process dateKey state).2 j
      = nestedTotal (rollups_raw dateKey state).2 j := by
  rw [post_process]
  simp only [nestedTotal]
  rw [dget_map_mergeSort]
  cases hg : dget (rollups_raw dateKey state).2 j with
  | none => simp
  | some sub => simp [sumValues_mergeSort]

/-- C3: for every state contents and every emote, the total of that emote's
values in the daily rollup equals the total in the user rollup, and both
equal the total occurrences of the emote across all video records. -/
theorem post_process_rollup_totals (dateKey : Nat → String) (state : EmoteState)
    (e : String) :
    nestedTotal (post_process dateKey state).1 e
        = nestedTotal (post_process dateKey state).2 e
    ∧ nestedTotal (post_process dateKey state).1 e = stateEmoteTotal state e := by
  rw [nestedTotal_post_process_daily, nestedTotal_post_process_user,
      rollups_raw_daily_total, rollups_raw_user_total]
  exact ⟨rfl, rfl⟩

/-! ## Duplicate-free keys invariant of the rollup dicts -/

/-- All outer keys distinct, and all inner dicts have distinct keys. -/
def NodupNested (d : Dict (Dict Nat)) : Prop :=
  (d.map Prod.fst).Nodup ∧ ∀ p ∈ d, (p.2.map Prod.fst).Nodup

theorem keys_dset {β : Type} (d : Dict β) (k : String) (v : β) :
    (dset d k v).map Prod.fst
      = if dmem d k then d.map Prod.fst else d.map Prod.fst ++ [k] := by
  by_cases hm : dmem d k = true
  · rw [if_pos hm]
    induction d with
    | nil => simp [dmem, dget] at hm
    | cons p rest ih =>
        obtain ⟨k', v'⟩ := p
        by_cases h : k' = k
        · subst h
          simp [dset]
        · have hm' : dmem rest k = true := by simpa [dmem, dget, h] using hm
          simp [dset, h, ih hm']
  · simp only [Bool.not_eq_true] at hm
    rw [hm]
    simp only [Bool.false_eq_true, if_false]
    rw [dset_append_of_not_mem d k v hm]
    simp

theorem nodup_keys_dset {β : Type} {d : Dict β} (k : String) (v : β)
    (h : (d.map Prod.fst).Nodup) : ((dset d k v).map Prod.fst).Nodup := by
  rw [keys_dset]
  by_cases hm : dmem d k = true
  · rw [if_pos hm]
    exact h
  · simp only [Bool.not_eq_true] at hm
    rw [hm]
    simp only [Bool.false_eq_true, if_false]
    rw [List.nodup_append]
    refine ⟨h, List.nodup_singleton _, ?_⟩
    intro a ha hb
    simp at hb
    subst hb
    have : dget d a = none := by
      rw [dmem] at hm
      cases hg : dget d a with
      | none => rfl
      | some s => rw [hg] at hm; simp at hm
    exact (dget_none_iff d a).mp this ha

theorem mem_dset {β : Type} {d : Dict β} {k : String} {v : β} {p : String × β}
    (h : p ∈ dset d k v) : p ∈ d ∨ p = (k, v) := by
  induction d with
  | nil =>
      simp [dset] at h
      simp [h]
  | cons q rest ih =>
      obtain ⟨k', v'⟩ := q
      by_cases hq : k' = k
      · subst hq
        simp [dset] at h
        rcases h with h | h
        · right
          simp [h]
        · left
          simp [h]
      · simp [dset, hq] at h
        rcases h with h | h
        · left
          simp [h]
        · rcases ih h with h' | h'
          · left
            simp [h']
          · right
            exact h'

theorem nodup_keys_bumpKey (sub : Dict Nat) (k : String) (v : Nat)
    (h : (sub.map Prod.fst).Nodup) : ((bumpKey sub k v).map Prod.fst).Nodup := by
  rw [bumpKey]
  cases dget sub k with
  | none => exact nodup_keys_dset _ _ h
  | some old => exact nodup_keys_dset _ _ h

theorem NodupNested_addNested (d : Dict (Dict Nat)) (k1 k2 : String) (v : Nat)
    (h : NodupNested d) : NodupNested (addNested d k1 k2 v) := by
  obtain ⟨ho, hi⟩ := h
  have hd1o : ((outerInit d k1).map Prod.fst).Nodup := by
    rw [outerInit]
    by_cases hm : dmem d k1 = true
    · rwa [if_pos hm]
    · simp only [Bool.not_eq_true] at hm
      rw [hm]
      simp only [Bool.false_eq_true, if_false]
      exact nodup_keys_dset _ _ ho
  have hd1i : ∀ p ∈ outerInit d k1, (p.2.map Prod.fst).Nodup := by
    intro p hp
    rw [outerInit] at hp
    by_cases hm : dmem d k1 = true
    · rw [if_pos hm] at hp
      exact hi p hp
    · simp only [Bool.not_eq_true] at hm
      rw [hm] at hp
      simp only [Bool.false_eq_true, if_false] at hp
      rcases mem_dset hp with h' | h'
      · exact hi p h'
      · simp [h']
  have hsub : (((dget (outerInit d k1) k1).getD []).map Prod.fst).Nodup := by
    cases hg : dget (outerInit d k1) k1 with
    | none => simp
    | some s => simpa using hd1i (k1, s) (mem_of_dget_eq_some hg)
  constructor
  · rw [addNested]
    exact nodup_keys_dset _ _ hd1o
  · intro p hp
    rw [addNested] at hp
    rcases mem_dset hp with h' | h'
    · exact hd1i p h'
    · rw [h']
      exact nodup_keys_bumpKey _ _ _ hsub

theorem NodupNested_userFold (e : String) (users : List EmoteUser)
    (d : Dict (Dict Nat)) (h : NodupNested d) :
    NodupNested (users.foldl (fun d2 u => addNested d2 e u.display_name u.use_index) d) := by
  induction users generalizing d with
  | nil => exact h
  | cons u rest ih => exact ih _ (NodupNested_addNested _ _ _ _ h)

theorem NodupNested_emoteFold (dk : String) (ems : List EmoteInfo)
    (acc : Dict (Dict Nat) × Dict (Dict Nat))
    (h1 : NodupNested acc.1) (h2 : NodupNested acc.2) :
    NodupNested (ems.foldl (processEmote dk) acc).1
      ∧ NodupNested (ems.foldl (processEmote dk) acc).2 := by
  induction ems generalizing acc with
  | nil => exact ⟨h1, h2⟩
  | cons em rest ih =>
      rw [List.foldl_cons, processEmote_eq]
      exact ih _ (NodupNested_addNested _ _ _ _ h1) (NodupNested_userFold _ _ _ h2)

theorem NodupNested_vodFold (dateKey : Nat → String) (vods : List VodEmoteStat)
    (acc : Dict (Dict Nat) × Dict (Dict Nat))
    (h1 : NodupNested acc.1) (h2 : NodupNested acc.2) :
    NodupNested (vods.foldl (processVod dateKey) acc).1
      ∧ NodupNested (vods.foldl (processVod dateKey) acc).2 := by
  induction vods generalizing acc with
  | nil => exact ⟨h1, h2⟩
  | cons vod rest ih =>
      rw [List.foldl_cons, processVod]
      obtain ⟨g1, g2⟩ := NodupNested_emoteFold (dateKey vod.info.created) vod.emotes acc h1 h2
      exact ih _ g1 g2

theorem NodupNested_rollups_raw (dateKey : Nat → String) (state : EmoteState) :
    NodupNested (rollups_raw dateKey state).1
      ∧ NodupNested (rollups_raw dateKey state).2 := by
  rw [rollups_raw]
  exact NodupNested_vodFold dateKey (dvalues state) ([], [])
    ⟨List.nodup_nil, by simp⟩ ⟨List.nodup_nil, by simp⟩

theorem dget_mergeSort {sub : Dict Nat}
    (le : (String × Nat) → (String × Nat) → Bool)
    (h : (sub.map Prod.fst).Nodup) (k : String) :
    dget (sub.mergeSort le) k = dget sub k :=
  (dget_congr_perm h (List.mergeSort_perm sub le).symm k).symm

theorem nestedGetD_post_process_daily (dateKey : Nat → String) (state : EmoteState)
    (j1 j2 : String) :
    nestedGetD (post_process dateKey state).1 j1 j2
      = nestedGetD (rollups_raw dateKey state).1 j1 j2 := by
  rw [post_process]
  simp only [nestedGetD]
  rw [dget_map_mergeSort]
  cases hg : dget (rollups_raw dateKey state).1 j1 with
  | none => simp
  | some sub =>
      have hnd : (sub.map Prod.fst).Nodup :=
        (NodupNested_rollups_raw dateKey state).1.2 (j1, sub) (mem_of_dget_eq_some hg)
      simp [dget_mergeSort dailyLe hnd]

/-- C8: the daily rollup maps each emote and day key to the sum, over all
records whose day key matches, of the per-video total of that emote's
counts.  The second conjunct is the spec's Scenario C: two same-day records
with totals 3 and 5 for "Kappa" yield 8. -/
theorem post_process_daily_value (dateKey : Nat → String) (state : EmoteState)
    (e dk : String) :
    nestedGetD (post_process dateKey state).1 e dk = dailySpec dateKey state e dk
    ∧ nestedGetD
        (post_process (fun _ => "2024-01-01")
          [("v1", { info := { id := "v1", title := "t1", created := 0, published := 0 },
                    emotes := [{ name := "Kappa",
                                 users := [{ display_name := "A", use_index := 3 }] }] }),
           ("v2", { info := { id := "v2", title := "t2", created := 1, published := 1 },
                    emotes := [{ name := "Kappa",
                                 users := [{ display_name := "B", use_index := 5 }] }] })]).1
        "Kappa" "2024-01-01" = 8 := by
  constructor
  · rw [nestedGetD_post_process_daily, rollups_raw_daily_getD]
  · rw [nestedGetD_post_process_daily, rollups_raw_daily_getD]
    decide

/-! ## C9: sort orders of the two rollups -/

theorem dailyLe_trans : ∀ a b c : String × Nat, dailyLe a b → dailyLe b c → dailyLe a c := by
  intro a b c hab hbc
  simp only [dailyLe, Bool.or_eq_true, Bool.and_eq_true, decide_eq_true_iff] at hab hbc ⊢
  rcases hab with h1 | ⟨h1, h2⟩
  · rcases hbc with g1 | ⟨g1, g2⟩
    · exact Or.inl (lt_trans h1 g1)
    · exact Or.inl (g1 ▸ h1)
  · rcases hbc with g1 | ⟨g1, g2⟩
    · exact Or.inl (h1 ▸ g1)
    · exact Or.inr ⟨h1.trans g1, le_trans h2 g2⟩

theorem dailyLe_total : ∀ a b : String × Nat, dailyLe a b || dailyLe b a := by
  intro a b
  simp only [dailyLe, Bool.or_eq_true, Bool.and_eq_true, decide_eq_true_iff]
  rcases lt_trichotomy a.1 b.1 with h | h | h
  · exact Or.inl (Or.inl h)
  · rcases Nat.le_total a.2 b.2 with h2 | h2
    · exact Or.inl (Or.inr ⟨h, h2⟩)
    · exact Or.inr (Or.inr ⟨h.symm, h2⟩)
  · exact Or.inr (Or.inl h)

theorem userLe_trans : ∀ a b c : String × Nat, userLe a b → userLe b c → userLe a c := by
  intro a b c hab hbc
  simp only [userLe, decide_eq_true_iff] at hab hbc ⊢
  exact le_trans hbc hab

theorem userLe_total : ∀ a b : String × Nat, userLe a b || userLe b a := by
  intro a b
  simp only [userLe, Bool.or_eq_true, decide_eq_true_iff]
  exact Nat.le_total b.2 a.2

/-- C9: each emote's daily sub-mapping comes out ordered by non-decreasing
day key, and each emote's user sub-mapping ordered by non-increasing count;
the user sort is stable — two entries with equal counts keep their original
relative order (here phrased with `List.Sublist`).  The first two conjuncts
pin each sorted sub-dict to a stable merge sort of the unsorted accumulation. -/
theorem post_process_sort_order (dateKey : Nat → String) (state : EmoteState)
    (e : String) :
    (∀ rsub, dget (rollups_raw dateKey state).1 e = some rsub →
        dget (post_process dateKey state).1 e = some (rsub.mergeSort dailyLe))
    ∧ (∀ rsub, dget (rollups_raw dateKey state).2 e = some rsub →
        dget (post_process dateKey state).2 e = some (rsub.mergeSort userLe))
    ∧ (∀ sub, dget (post_process dateKey state).1 e = some sub →
        sub.Pairwise (fun a b => a.1 ≤ b.1))
    ∧ (∀ sub, dget (post_process dateKey state).2 e = some sub →
        sub.Pairwise (fun a b => b.2 ≤ a.2))
    ∧ (∀ rsub, dget (rollups_raw dateKey state).2 e = some rsub →
        ∀ u v : String × Nat, [u, v].Sublist rsub → u.2 = v.2 →
          [u, v].Sublist (rsub.mergeSort userLe)) := by
  refine ⟨?_, ?_, ?_, ?_, ?_⟩
  · intro rsub hr
    rw [post_process]
    simp only []
    rw [dget_map_mergeSort, hr]
    rfl
  · intro rsub hr
    rw [post_process]
    simp only []
    rw [dget_map_mergeSort, hr]
    rfl
  · intro sub hsub
    rw [post_process] at hsub
    simp only [] at hsub
    rw [dget_map_mergeSort] at hsub
    cases hg : dget (rollups_raw dateKey state).1 e with
    | none => rw [hg] at hsub; simp at hsub
    | some rsub =>
        rw [hg] at hsub
        simp only [Option.map] at hsub
        have hsub' : sub = rsub.mergeSort dailyLe := by
          cases hsub
          rfl
        subst hsub'
        refine (List.sorted_mergeSort dailyLe_trans dailyLe_total rsub).imp ?_
        intro a b hab
        simp only [dailyLe, Bool.or_eq_true, Bool.and_eq_true, decide_eq_true_iff] at hab
        rcases hab with h | ⟨h, -⟩
        · exact le_of_lt h
        · exact le_of_eq h
  · intro sub hsub
    rw [post_process] at hsub
    simp only [] at hsub
    rw [dget_map_mergeSort] at hsub
    cases hg : dget (rollups_raw dateKey state).2 e with
    | none => rw [hg] at hsub; simp at hsub
    | some rsub =>
        rw [hg] at hsub
        simp only [Option.map] at hsub
        have hsub' : sub = rsub.mergeSort userLe := by
          cases hsub
          rfl
        subst hsub'
        refine (List.sorted_mergeSort userLe_trans userLe_total rsub).imp ?_
        intro a b hab
        simpa [userLe] using hab
  · intro rsub _ u v hsub huv
    refine List.pair_sublist_mergeSort userLe_trans userLe_total ?_ hsub
    simp [userLe, huv]

/-- Witness for C9 on a concrete state: one record with users A:3, C:3, B:1
for emote "Kappa".  The user rollup is sorted non-increasingly and the tied
pair (A,3), (C,3) keeps its original order in the sorted output. -/
theorem post_process_sort_order_witness :
    (List.mergeSort [(("A" : String), (3 : Nat)), ("C", 3), ("B", 1)] userLe).Pairwise
        (fun a b => b.2 ≤ a.2)
    ∧ [(("A" : String), (3 : Nat)), ("C", 3)].Sublist
        (List.mergeSort [(("A" : String), (3 : Nat)), ("C", 3), ("B", 1)] userLe) := by
  have h := post_process_sort_order (fun _ => "2024-01-01")
    [("v1", { info := { id := "v1", title := "t", created := 0, published := 0 },
              emotes := [{ name := "Kappa",
                           users := [{ display_name := "A", use_index := 3 },
                                     { display_name := "C", use_index := 3 },
                                     { display_name := "B", use_index := 1 }] }] })]
    "Kappa"
  have h2 := h.2.1 [("A", 3), ("C", 3), ("B", 1)] (by decide)
  refine ⟨h.2.2.2.1 _ h2, ?_⟩
  exact h.2.2.2.2 [("A", 3), ("C", 3), ("B", 1)] (by decide) ("A", 3) ("C", 3)
    (by decide) rfl

/-! ## C10: an emote with no users anywhere -/

/-- Whether the nested dict has an entry at `d[k1][k2]`. -/
def nestedMem (d : Dict (Dict Nat)) (k1 k2 : String) : Bool :=
  dmem ((dget d k1).getD []) k2

theorem nestedMem_addNested_self (d : Dict (Dict Nat)) (k1 k2 : String) (v : Nat) :
    nestedMem (addNested d k1 k2 v) k1 k2 = true := by
  rw [nestedMem, dget_addNested_self, Option.getD_some, dmem, dget_bumpKey_self]
  rfl

theorem nestedMem_addNested_mono {d : Dict (Dict Nat)} {j1 j2 : String}
    (k1 k2 : String) (v : Nat) (h : nestedMem d j1 j2 = true) :
    nestedMem (addNested d k1 k2 v) j1 j2 = true := by
  by_cases h1 : j1 = k1
  · subst h1
    rw [nestedMem, dget_addNested_self, Option.getD_some]
    by_cases h2 : j2 = k2
    · subst h2
      rw [dmem, dget_bumpKey_self]
      rfl
    · rw [dmem, dget_bumpKey_ne _ _ _ _ h2]
      rw [nestedMem, dmem] at h
      exact h
  · rw [nestedMem, dget_addNested_ne _ _ _ _ _ h1]
    rw [nestedMem] at h
    exact h

theorem nestedMem_userFold_mono (e : String) (users : List EmoteUser)
    {d : Dict (Dict Nat)} {j1 j2 : String} (h : nestedMem d j1 j2 = true) :
    nestedMem (users.foldl (fun d2 u => addNested d2 e u.display_name u.use_index) d)
      j1 j2 = true := by
  induction users generalizing d with
  | nil => exact h
  | cons u rest ih => exact ih (nestedMem_addNested_mono _ _ _ h)

theorem nestedMem_emoteFold_mono (dk : String) (ems : List EmoteInfo)
    {acc : Dict (Dict Nat) × Dict (Dict Nat)} {j1 j2 : String}
    (h : nestedMem acc.1 j1 j2 = true) :
    nestedMem (ems.foldl (processEmote dk) acc).1 j1 j2 = true := by
  induction ems generalizing acc with
  | nil => exact h
  | cons em rest ih =>
      rw [List.foldl_cons, processEmote_eq]
      exact ih (nestedMem_addNested_mono _ _ _ h)

theorem nestedMem_emoteFold_self (dk : String) (ems : List EmoteInfo)
    (acc : Dict (Dict Nat) × Dict (Dict Nat)) {em : EmoteInfo} (hmem : em ∈ ems) :
    nestedMem (ems.foldl (processEmote dk) acc).1 em.name dk = true := by
  induction ems generalizing acc with
  | nil => simp at hmem
  | cons em0 rest ih =>
      rw [List.foldl_cons, processEmote_eq]
      rcases List.mem_cons.mp hmem with h | h
      · subst h
        exact nestedMem_emoteFold_mono dk rest (nestedMem_addNested_self _ _ _ _)
      · exact ih _ h

theorem nestedMem_vodFold_mono (dateKey : Nat → String) (vods : List VodEmoteStat)
    {acc : Dict (Dict Nat) × Dict (Dict Nat)} {j1 j2 : String}
    (h : nestedMem acc.1 j1 j2 = true) :
    nestedMem (vods.foldl (processVod dateKey) acc).1 j1 j2 = true := by
  induction vods generalizing acc with
  | nil => exact h
  | cons vod rest ih =>
      rw [List.foldl_cons, processVod]
      exact ih (nestedMem_emoteFold_mono _ _ h)

theorem nestedMem_vodFold_self (dateKey : Nat → String) (vods : List VodEmoteStat)
    (acc : Dict (Dict Nat) × Dict (Dict Nat)) {vod : VodEmoteStat} {em : EmoteInfo}
    (hv : vod ∈ vods) (he : em ∈ vod.emotes) :
    nestedMem (vods.foldl (processVod dateKey) acc).1 em.name
      (dateKey vod.info.created) = true := by
  induction vods generalizing acc with
  | nil => simp at hv
  | cons vod0 rest ih =>
      rw [List.foldl_cons]
      rcases List.mem_cons.mp hv with h | h
      · subst h
        rw [processVod]
        exact nestedMem_vodFold_mono dateKey rest
          (nestedMem_emoteFold_self _ _ _ he)
      · exact ih _ h

theorem dget_userFold_other (e : String) (users : List EmoteUser)
    (d : Dict (Dict Nat)) {j : String} (hne : j ≠ e) :
    dget (users.foldl (fun d2 u => addNested d2 e u.display_name u.use_index) d) j
      = dget d j := by
  induction users generalizing d with
  | nil => rfl
  | cons u rest ih =>
      rw [List.foldl_cons, ih, dget_addNested_ne _ _ _ _ _ hne]

theorem dget_user_emoteFold_none (dk : String) (ems : List EmoteInfo)
    (acc : Dict (Dict Nat) × Dict (Dict Nat)) {e : String}
    (hem : ∀ em ∈ ems, em.name = e → em.users = [])
    (h : dget acc.2 e = none) :
    dget (ems.foldl (processEmote dk) acc).2 e = none := by
  induction ems generalizing acc with
  | nil => exact h
  | cons em rest ih =>
      rw [List.foldl_cons, processEmote_eq]
      refine ih _ (fun em' hm => hem em' (List.mem_cons_of_mem _ hm)) ?_
      by_cases hname : em.name = e
      · rw [hem em (List.mem_cons_self _ _) hname]
        exact h
      · simp only []
        rw [dget_userFold_other _ _ _ (fun he => hname he.symm)]
        exact h

theorem dget_user_vodFold_none (dateKey : Nat → String) (vods : List VodEmoteStat)
    (acc : Dict (Dict Nat) × Dict (Dict Nat)) {e : String}
    (hem : ∀ vod ∈ vods, ∀ em ∈ vod.emotes, em.name = e → em.users = [])
    (h : dget acc.2 e = none) :
    dget (vods.foldl (processVod dateKey) acc).2 e = none := by
  induction vods generalizing acc with
  | nil => exact h
  | cons vod rest ih =>
      rw [List.foldl_cons, processVod]
      refine ih _ (fun vod' hv => hem vod' (List.mem_cons_of_mem _ hv)) ?_
      exact dget_user_emoteFold_none _ _ _ (hem vod (List.mem_cons_self _ _)) h

/-- C10: if some emote's user collection is empty in every record (the emote
was configured but never matched), aggregation still creates a daily-rollup
entry of 0 for that emote on every record's day key, while the emote never
appears as a key of the user rollup at all. -/
theorem post_process_empty_emote (dateKey : Nat → String) (state : EmoteState)
    (e : String)
    (hempty : ∀ p ∈ state, ∀ em ∈ (Prod.snd p).emotes, em.name = e → em.users = []) :
    (∀ p ∈ state, ∀ em ∈ (Prod.snd p).emotes, em.name = e →
        ∃ sub, dget (post_process dateKey state).1 e = some sub
          ∧ dget sub (dateKey (Prod.snd p).info.created) = some 0)
    ∧ dget (post_process dateKey state).2 e = none := by
  constructor
  · intro p hp em hem hname
    have hvod : p.2 ∈ dvalues state := List.mem_map_of_mem Prod.snd hp
    have hmem : nestedMem (rollups_raw dateKey state).1 em.name
        (dateKey p.2.info.created) = true := by
      rw [rollups_raw]
      exact nestedMem_vodFold_self dateKey (dvalues state) ([], []) hvod hem
    rw [hname] at hmem
    rw [nestedMem] at hmem
    cases hg : dget (rollups_raw dateKey state).1 e with
    | none =>
        rw [hg] at hmem
        simp [dmem, dget] at hmem
    | some rsub =>
        rw [hg] at hmem
        simp only [Option.getD_some] at hmem
        have hnd : (rsub.map Prod.fst).Nodup :=
          (NodupNested_rollups_raw dateKey state).1.2 (e, rsub) (mem_of_dget_eq_some hg)
        refine ⟨rsub.mergeSort dailyLe, ?_, ?_⟩
        · rw [post_process]
          simp only []
          rw [dget_map_mergeSort, hg]
          rfl
        · rw [dget_mergeSort dailyLe hnd]
          rw [dmem] at hmem
          cases hx : dget rsub (dateKey p.2.info.created) with
          | none => rw [hx] at hmem; simp at hmem
          | some x =>
              have hval : nestedGetD (rollups_raw dateKey state).1 e
                  (dateKey p.2.info.created) = x := by
                rw [nestedGetD, hg, Option.getD_some, hx]
                rfl
              rw [rollups_raw_daily_getD] at hval
              have hzero : dailySpec dateKey state e (dateKey p.2.info.created) = 0 := by
                rw [dailySpec]
                refine List.sum_eq_zero ?_
                intro x hx'
                rw [List.mem_map] at hx'
                obtain ⟨vod, hv, hvx⟩ := hx'
                rw [List.mem_filter] at hv
                obtain ⟨hv, -⟩ := hv
                rw [dvalues, List.mem_map] at hv
                obtain ⟨q, hq, hqv⟩ := hv
                subst hvx
                rw [vodEmoteTotal, emotesTotal]
                refine List.sum_eq_zero ?_
                intro y hy
                rw [List.mem_map] at hy
                obtain ⟨em', he', hey⟩ := hy
                rw [List.mem_filter] at he'
                obtain ⟨he', hname'⟩ := he'
                have : em'.users = [] := by
                  refine hempty q hq em' ?_ (by simpa using hname')
                  rw [hqv]
                  exact he'
                subst hey
                rw [this]
                rfl
              rw [hzero] at hval
              rw [← hval]
  · rw [post_process]
    simp only []
    rw [dget_map_mergeSort]
    have : dget (rollups_raw dateKey state).2 e = none := by
      rw [rollups_raw]
      refine dget_user_vodFold_none dateKey (dvalues state) ([], []) ?_ rfl
      intro vod hv em hem hname
      rw [dvalues, List.mem_map] at hv
      obtain ⟨q, hq, hqv⟩ := hv
      refine hempty q hq em ?_ hname
      rw [hqv]
      exact hem
    rw [this]
    rfl

/-- Witness for C10 on a concrete state: emote "Empty" is configured but
never matched, so it is absent from the user rollup keys. -/
theorem post_process_empty_emote_witness :
    dget (post_process (fun _ => "2024-01-01")
        [("v1", { info := { id := "v1", title := "t", created := 0, published := 0 },
                  emotes := [{ name := "Empty", users := [] },
                             { name := "Kappa",
                               users := [{ display_name := "A", use_index := 2 }] }] })]).2
      "Empty" = none :=
  (post_process_empty_emote (fun _ => "2024-01-01")
      [("v1", { info := { id := "v1", title := "t", created := 0, published := 0 },
                emotes := [{ name := "Empty", users := [] },
                           { name := "Kappa",
                             users := [{ display_name := "A", use_index := 2 }] }] })]
      "Empty" (by decide)).2

/-! ## Orchestration: the VOD loop (C6, C5, C4) and loading (C1) -/

/-- The subsequence of available VODs whose id is not yet a key of the
state — the VideoRecordFilter of the spec. -/
def filterNew (state : EmoteState) (vods : List VodInfo) : List VodInfo :=
  vods.filter (fun v => !(dmem state v.id))

/-- The state entry inserted for one new VOD. -/
def newRecord (fetch : String → Option ChatJson) (emotes : List String)
    (v : VodInfo) : String × VodEmoteStat :=
  (v.id,
   { info := v,
     emotes := get_emote_users
       ((fetch v.id).getD { videoId := v.id, comments := [] }) emotes })

theorem dmem_dset_of_ne {β : Type} (d : Dict β) {k j : String} (v : β) (h : k ≠ j) :
    dmem (dset d k v) j = dmem d j := by
  rw [dmem, dget_dset_of_ne d v h, dmem]

theorem filterNew_dset (s : EmoteState) (rest : List VodInfo) (k : String)
    (r : VodEmoteStat) (hk : k ∉ rest.map VodInfo.id) :
    filterNew (dset s k r) rest = filterNew s rest := by
  rw [filterNew, filterNew]
  refine List.filter_congr ?_
  intro v hv
  have : k ≠ v.id := fun he => hk (he ▸ List.mem_map_of_mem VodInfo.id hv)
  rw [dmem_dset_of_ne s r this]

theorem processVods_eq (fetch : String → Option ChatJson) (emotes : List String)
    (vods : List VodInfo) (s : EmoteState) (u : Bool)
    (hnd : (vods.map VodInfo.id).Nodup)
    (hf : ∀ v ∈ vods, dmem s v.id = false → (fetch v.id).isSome = true) :
    processVods fetch emotes vods s u =
      Except.ok (s ++ (filterNew s vods).map (newRecord fetch emotes),
                 u || !(filterNew s vods).isEmpty) := by
  induction vods generalizing s u with
  | nil => simp [processVods, filterNew]
  | cons v rest ih =>
      rw [List.map_cons, List.nodup_cons] at hnd
      rw [processVods]
      by_cases hm : dmem s v.id = true
      · rw [if_pos hm]
        have hfn : filterNew s (v :: rest) = filterNew s rest := by
          rw [filterNew, List.filter_cons_of_neg (by simp [hm]), filterNew]
        rw [hfn, ih s u hnd.2 (fun w hw => hf w (List.mem_cons_of_mem _ hw))]
      · rw [if_neg hm]
        rw [Bool.not_eq_true] at hm
        cases hw : fetch v.id with
        | none =>
            have := hf v (List.mem_cons_self _ _) hm
            rw [hw] at this
            simp at this
        | some chat =>
            change processVods fetch emotes rest
              (dset s v.id { info := v, emotes := get_emote_users chat emotes }) true = _
            have hfn : filterNew s (v :: rest) = v :: filterNew s rest := by
              rw [filterNew, List.filter_cons_of_pos (by simp [hm]), filterNew]
            have hpair :
                (v.id, ({ info := v, emotes := get_emote_users chat emotes } : VodEmoteStat))
                  = newRecord fetch emotes v := by
              rw [newRecord]
              simp only [hw, Option.getD_some]
            rw [ih (dset s v.id { info := v, emotes := get_emote_users chat emotes }) true
              hnd.2 ?hf2]
            case hf2 =>
              intro w hwr hwm
              refine hf w (List.mem_cons_of_mem _ hwr) ?_
              have hne : v.id ≠ w.id :=
                fun he => hnd.1 (he ▸ List.mem_map_of_mem VodInfo.id hwr)
              rwa [dmem_dset_of_ne s _ hne] at hwm
            rw [filterNew_dset s rest v.id _ hnd.1,
                dset_append_of_not_mem s v.id _ hm, hfn]
            rw [List.map_cons, ← hpair]
            simp [List.append_assoc]

theorem processVods_noop (fetch : String → Option ChatJson) (emotes : List String)
    (vods : List VodInfo) (s : EmoteState) (u : Bool)
    (hall : ∀ v ∈ vods, dmem s v.id = true) :
    processVods fetch emotes vods s u = Except.ok (s, u) := by
  induction vods with
  | nil => rfl
  | cons v rest ih =>
      rw [processVods, if_pos (hall v (List.mem_cons_self _ _))]
      exact ih (fun w hw => hall w (List.mem_cons_of_mem _ hw))

theorem processVods_fetch_fail (fetch : String → Option ChatJson) (emotes : List String)
    (vods : List VodInfo) (s : EmoteState) (u : Bool)
    (hnd : (vods.map VodInfo.id).Nodup)
    (hv : ∃ v ∈ vods, dmem s v.id = false ∧ fetch v.id = none) :
    processVods fetch emotes vods s u = Except.error RunError.fetchFailure := by
  induction vods generalizing s u with
  | nil => simp at hv
  | cons w rest ih =>
      rw [List.map_cons, List.nodup_cons] at hnd
      obtain ⟨v, hvmem, hvnew, hvfail⟩ := hv
      rw [processVods]
      by_cases hm : dmem s w.id = true
      · rw [if_pos hm]
        have hvr : v ∈ rest := by
          rcases List.mem_cons.mp hvmem with h | h
          · subst h
            rw [hm] at hvnew
            cases hvnew
          · exact h
        exact ih s u hnd.2 ⟨v, hvr, hvnew, hvfail⟩
      · rw [if_neg hm]
        cases hw : fetch w.id with
        | none => rfl
        | some chat =>
            have hvr : v ∈ rest := by
              rcases List.mem_cons.mp hvmem with h | h
              · subst h
                rw [hvfail] at hw
                cases hw
              · exact h
            have hne : w.id ≠ v.id :=
              fun he => hnd.1 (he ▸ List.mem_map_of_mem VodInfo.id hvr)
            refine ih _ true hnd.2 ⟨v, hvr, ?_, hvfail⟩
            rwa [dmem_dset_of_ne s _ hne]

/-- C6: exactly the available VODs whose id is absent from the persisted
state's keys are scanned and inserted, appended in input order; a VOD whose
id is already a key is skipped and its existing entry is never mutated. -/
theorem vod_loop_filters_new (fetch : String → Option ChatJson) (emotes : List String)
    (vods : List VodInfo) (s : EmoteState) (u : Bool)
    (hnd : (vods.map VodInfo.id).Nodup)
    (hf : ∀ v ∈ vods, dmem s v.id = false → (fetch v.id).isSome = true) :
    processVods fetch emotes vods s u =
      Except.ok (s ++ (filterNew s vods).map (newRecord fetch emotes),
                 u || !(filterNew s vods).isEmpty)
    ∧ ∀ k, dmem s k = true →
        dget (s ++ (filterNew s vods).map (newRecord fetch emotes)) k = dget s k :=
  ⟨processVods_eq fetch emotes vods s u hnd hf,
   fun k hk => dget_append_left s _ k hk⟩

/-- Concrete VODs and state for the orchestration witnesses
(the spec's Scenario B). -/
def vodA : VodInfo := { id := "v1", title := "t1", created := 0, published := 0 }

def vodB : VodInfo := { id := "v2", title := "t2", created := 1, published := 1 }

def recA : VodEmoteStat := { info := vodA, emotes := [{ name := "Pog", users := [] }] }

def stateB : EmoteState := [("v1", recA)]

def fetchB : String → Option ChatJson :=
  fun id => some { videoId := id, comments := [{ commenter := "A", body := "Pog hi" }] }

/-- Witness for C6 at Scenario B: "v1" already recorded, "v1" and "v2"
available — only "v2" is processed and "v1"'s entry is unchanged. -/
theorem vod_loop_filters_new_witness :
    processVods fetchB ["Pog"] [vodA, vodB] stateB false =
      Except.ok (stateB ++ (filterNew stateB [vodA, vodB]).map (newRecord fetchB ["Pog"]),
                 false || !(filterNew stateB [vodA, vodB]).isEmpty)
    ∧ dget (stateB ++ (filterNew stateB [vodA, vodB]).map (newRecord fetchB ["Pog"])) "v1"
      = dget stateB "v1" := by
  have h := vod_loop_filters_new fetchB ["Pog"] [vodA, vodB] stateB false
    (by decide) (by decide)
  exact ⟨h.1, h.2 "v1" (by decide)⟩

/-- C5: a run in which every available VOD id is already a key of the loaded
state writes nothing: the persisted state and both rollup artifacts are
returned byte-for-byte unchanged and no error is raised. -/
theorem run_noop (env : RunEnv) (art : Artifacts) (cfg : EmoteConfig) (s0 : EmoteState)
    (hc : env.config_file = some cfg)
    (hs : loadState env = Except.ok s0)
    (hall : ∀ v ∈ env.vod_list, dmem s0 v.id = true) :
    run env art = (art, none) := by
  have hp := processVods_noop env.fetchChat cfg.emotes env.vod_list s0 false hall
  rw [run]
  simp [hc, hs, hp]

/-- Environment for the C5 witness: the only available VOD is already
recorded. -/
def envNoop : RunEnv :=
  { emote_stats_path := "emote-stats.json",
    config_file := some { channel_name := "chan", emotes := ["Pog"] },
    state_file := some stateB,
    write_dir := true,
    vod_list := [vodA],
    fetchChat := fun _ => none,
    dateKey := fun _ => "1970-01-01" }

/-- The artifacts at the start of the witness runs. -/
def art0 : Artifacts := { state_out := none, daily_out := none, user_out := none }

/-- Witness for C5: the no-op run returns the artifacts unchanged. -/
theorem run_noop_witness : run envNoop art0 = (art0, none) :=
  run_noop envNoop art0 { channel_name := "chan", emotes := ["Pog"] } stateB
    rfl rfl (by decide)

/-- C4: if a transcript fetch fails for some new VOD, the run aborts with a
fetch failure and the persisted artifacts are left exactly as they were —
no partially updated state is written. -/
theorem run_abort_preserves_artifacts (env : RunEnv) (art : Artifacts)
    (cfg : EmoteConfig) (s0 : EmoteState)
    (hc : env.config_file = some cfg)
    (hs : loadState env = Except.ok s0)
    (hnd : (env.vod_list.map VodInfo.id).Nodup)
    (hv : ∃ v ∈ env.vod_list, dmem s0 v.id = false ∧ env.fetchChat v.id = none) :
    run env art = (art, some RunError.fetchFailure) := by
  have hp := processVods_fetch_fail env.fetchChat cfg.emotes env.vod_list s0 false hnd hv
  rw [run]
  simp [hc, hs, hp]

/-- Environment for the C4 witness: "v2" is new but its fetch fails. -/
def envAbort : RunEnv :=
  { emote_stats_path := "emote-stats.json",
    config_file := some { channel_name := "chan", emotes := ["Pog"] },
    state_file := some stateB,
    write_dir := true,
    vod_list := [vodA, vodB],
    fetchChat := fun _ => none,
    dateKey := fun _ => "1970-01-01" }

/-- Witness for C4: the aborted run leaves the artifacts untouched. -/
theorem run_abort_preserves_artifacts_witness :
    run envAbort art0 = (art0, some RunError.fetchFailure) :=
  run_abort_preserves_artifacts envAbort art0
    { channel_name := "chan", emotes := ["Pog"] } stateB rfl rfl (by decide)
    ⟨vodB, by decide, by decide, rfl⟩

/-- C1 (amended): a missing config file aborts the run with `SourceNotFound`;
an empty/unset state-file *path* yields an empty starting `EmoteState`; but a
configured (non-empty) path whose file is absent aborts the run with
`SourceNotFound` — the code tests the truthiness of the path setting, not
the existence of the file. -/
theorem run_load_behavior (env : RunEnv) (art : Artifacts) :
    (env.config_file = none → run env art = (art, some RunError.sourceNotFound))
    ∧ (env.emote_stats_path = "" → loadState env = Except.ok [])
    ∧ (env.emote_stats_path ≠ "" → env.state_file = none → env.config_file ≠ none →
        run env art = (art, some RunError.sourceNotFound)) := by
  refine ⟨?_, ?_, ?_⟩
  · intro hc
    rw [run, hc]
  · intro hp
    rw [loadState, if_neg (by simp [hp])]
  · intro hp hsf hc
    cases hcf : env.config_file with
    | none => exact absurd hcf hc
    | some cfg =>
        have hload : loadState env = Except.error RunError.sourceNotFound := by
          rw [loadState, if_pos hp, hsf]
        rw [run]
        simp [hcf, hload]

/-- Environment whose config file is absent. -/
def envNoConfig : RunEnv :=
  { emote_stats_path := "emote-stats.json",
    config_file := none,
    state_file := some [],
    write_dir := true,
    vod_list := [],
    fetchChat := fun _ => none,
    dateKey := fun _ => "1970-01-01" }

/-- Environment whose state-file path setting is empty. -/
def envEmptyPath : RunEnv :=
  { emote_stats_path := "",
    config_file := some { channel_name := "chan", emotes := [] },
    state_file := none,
    write_dir := true,
    vod_list := [],
    fetchChat := fun _ => none,
    dateKey := fun _ => "1970-01-01" }

/-- Environment with a configured state path whose file is absent. -/
def envNoState : RunEnv :=
  { emote_stats_path := "emote-stats.json",
    config_file := some { channel_name := "chan", emotes := ["Pog"] },
    state_file := none,
    write_dir := true,
    vod_list := [],
    fetchChat := fun _ => none,
    dateKey := fun _ => "1970-01-01" }

/-- Witness for the amended C1 at the three concrete environments. -/
theorem run_load_behavior_witness :
    run envNoConfig art0 = (art0, some RunError.sourceNotFound)
    ∧ loadState envEmptyPath = Except.ok []
    ∧ run envNoState art0 = (art0, some RunError.sourceNotFound) :=
  ⟨(run_load_behavior envNoConfig art0).1 rfl,
   (run_load_behavior envEmptyPath art0).2.1 rfl,
   (run_load_behavior envNoState art0).2.2 (by decide) rfl (by decide)⟩

/-- C1 counterexample: with a configured (non-empty, default-like) state
path, an absent persisted state file makes the run abort with
`SourceNotFound` instead of starting from an empty `EmoteState` — refuting
the claim that an absent state file never aborts the run. -/
theorem run_missing_state_file_raises :
    run envNoState art0 = (art0, some RunError.sourceNotFound) := by
  rfl

end EmoteStats
